import Mathlib

/-!
Verification of the typed argument materialization core and the circuit
renderer of the cuda-quantum repository.  The definitions below are a shallow
embedding of src/runtime/common/ArgumentConversion.cpp (the walker
dispatchSubtype, the genConstant overloads, and ArgumentConverter::gen) and of
src/runtime/cudaq/algorithms/draw.cpp (merge_chars and the layered schedule of
cudaq internal draw).

Modelling conventions:
  - Host memory is an address-indexed oracle of typed reads (structure Mem):
    the C++ code only ever reads a typed value through a raw pointer, so the
    embedding records the value obtained at each address for each leaf type.
  - mlir Values are terms of the inductive IRValue; operations with a side
    effect on the substitution module (interned globals, allocas, stores) are
    collected in a list of EOp in emission order.  A C++ null Value (skipped
    emission) is modelled by none; the TODO macro, which throws, is modelled
    by the Except error case.
  - Interned globals and alloca buffers are identified by the host address
    they materialize instead of by a fresh SSA name; no claim depends on name
    freshness.
  - The data layout collaborator (getDataSize and getDataOffset) is declared
    in a header that is not part of the three source files, so it is modelled
    from the spec as a pair of oracle functions (data_size, data_offset).
-/

/-- Type algebra dispatched on by ArgumentConversion.cpp: builtin integer,
float and complex types, and the cudaq cc dialect types (CharspanType,
PointerType, StateType, StdvecType, StructType, ArrayType) plus builtin
TupleType.  An ArrayType with size none models an unknown-size array. -/
inductive CCType where
  | int (bits : Nat)
  | f32
  | f64
  | extFloat (bits : Nat)
  | complex (elem : CCType)
  | charspan
  | ptr (elem : CCType)
  | state
  | stdvec (elem : CCType)
  | array (elem : CCType) (size : Option Nat)
  | struct (members : List CCType)
  | tuple (members : List CCType)

/-- Emitted mlir constant values.  Float payloads are abstract tokens (the
conversion code never computes with the float, it only embeds the host value
into an attribute), an extended float carries the decimal rendering used by
the source, and aggregate constants are undef plus insert-value chains
exactly as the builder emits them. -/
inductive IRValue where
  | intConst (bits : Nat) (v : Int)
  | f32Const (payload : Nat)
  | f64Const (payload : Nat)
  | extFloatConst (bits : Nat) (decimal : String)
  | complexConst (isF64 : Bool) (re im : Nat)
  | undef (ty : CCType)
  | insertValue (ty : CCType) (agg : IRValue) (v : IRValue) (idx : Nat)
  | extractValue (ty : CCType) (agg : IRValue) (idx : Nat)
  | addressOf (global : Nat)
  | cast (ty : CCType) (v : IRValue)
  | alloca (ty : CCType) (id : Nat)
  | stdvecInit (ty : CCType) (p : IRValue) (size : IRValue)

/-- Module-level side effects of emission: a C-string literal interned into
the substitution module, an alloca of a fixed array, and a store through a
computed element pointer. -/
inductive EOp where
  | internGlobal (id : Nat) (bytes : List Nat)
  | allocaOp (id : Nat) (ty : CCType)
  | store (v : IRValue) (buf : Nat) (idx : Nat)

/-- Result of StateData readStateData: a host-resident pointer to the
amplitudes, the element count and the element size in bytes (the scoped
releaser has no observable effect on emission and is omitted). -/
structure StateData where
  data : Nat
  size : Nat
  elementSize : Nat

/-- Typed host-memory read oracle.  Each field records the value the C++ code
obtains when it dereferences a raw pointer at a given address with the
corresponding static type.  readVecTriple is the vendor triple of pointers
begin, end, capacity of a std vector; readString is the byte content of a
std string; readStateData is the StateData produced by readStateData for a
state pointer. -/
structure Mem where
  readBool : Nat → Bool
  readI8 : Nat → Int
  readI16 : Nat → Int
  readI32 : Nat → Int
  readI64 : Nat → Int
  readF32 : Nat → Nat
  readF64 : Nat → Nat
  readLongDouble : Nat → String
  readC32 : Nat → Nat × Nat
  readC64 : Nat → Nat × Nat
  readString : Nat → List Nat
  readVecTriple : Nat → Nat × Nat × Nat
  readStateData : Nat → StateData

/-- Modelled from the spec: the data-layout collaborator (getDataSize and
getDataOffset are declared in a header outside the provided sources).  size
is data_size of a type in bytes; offset is data_offset of field i of a
struct with the given member list. -/
structure DataLayout where
  size : CCType → Nat
  offset : List CCType → Nat → Nat

/-- PlatformSettings of the source: the two boolean axes selecting the state
argument strategy.  ptrBytes models the host constant sizeof of a void
pointer used for the pointer-as-integer width. -/
structure PlatformSettings where
  isSimulator : Bool
  isRemote : Bool
  ptrBytes : Nat

/-- Source IR module as read by gen: a symbol table of function signatures
(only the formal parameter type list is consulted) and the optional
data-layout attribute string. -/
structure SourceModule where
  symbols : List (String × List CCType)
  dataLayoutAttr : Option String

/-- One ArgumentSubstitutionOp: the parameter index, the terminal value of
its block (none when emission was skipped) and the side-effect ops emitted
into its block or the substitution module. -/
structure SubstRecord where
  index : Nat
  val : Option IRValue
  ops : List EOp

/-- State of an ArgumentConverter: the source module and the accumulated
substitution records (the substitutions member, cumulative across gen
calls). -/
structure ConverterState where
  source : SourceModule
  substs : List SubstRecord

mutual

/-- Termination measure on the type algebra (with lweight for member lists)
for the recursive walker.  The only non-structural recursions of the source
are the tuple case, which walks a struct over the reversed member list, and
the remote-state case, which walks a freshly built complex array; the weights
are chosen so both strictly decrease. -/
def tweight : CCType → Nat
  | .int _ => 1
  | .f32 => 1
  | .f64 => 1
  | .extFloat _ => 1
  | .complex e => tweight e + 1
  | .charspan => 1
  | .ptr e => tweight e + 4
  | .state => 1
  | .stdvec e => tweight e + 1
  | .array e _ => tweight e + 1
  | .struct ms => lweight ms + 1
  | .tuple ms => lweight ms + 2

def lweight : List CCType → Nat
  | [] => 0
  | t :: ts => tweight t + lweight ts + 1

end

/-- Reinterpretation of an integer as a signed 32 bit value: models the
narrowing of the element count to std int32 in genConstant for StdvecType. -/
def wrap32 (x : Int) : Int := (x + 2 ^ 31) % 2 ^ 32 - 2 ^ 31

/-- Emission result: the produced mlir Value (none models a null Value, a
skipped emission) together with the module-level ops emitted on the way. -/
abbrev EmitRes := Option IRValue × List EOp

/-- An emitter for subterms: the recursive walker passed to the aggregate
cases. -/
abbrev Emitter := CCType → Nat → Except String EmitRes

/-- Integer-width switch shared by dispatchSubtype and gen: one genConstant
per recognized width, a null Value for any other width. -/
def genIntLeaf (mem : Mem) (bits p : Nat) : EmitRes :=
  if bits = 1 then (some (.intConst 1 (if mem.readBool p then 1 else 0)), [])
  else if bits = 8 then (some (.intConst 8 (mem.readI8 p)), [])
  else if bits = 16 then (some (.intConst 16 (mem.readI16 p)), [])
  else if bits = 32 then (some (.intConst 32 (mem.readI32 p)), [])
  else if bits = 64 then (some (.intConst 64 (mem.readI64 p)), [])
  else (none, [])

/-- Complex-element switch shared by dispatchSubtype and gen: genConstant for
complex of f32 or f64, a null Value for any other element type. -/
def genComplexLeaf (mem : Mem) (e : CCType) (p : Nat) : EmitRes :=
  match e with
  | .f32 => (some (.complexConst false (mem.readC32 p).1 (mem.readC32 p).2), [])
  | .f64 => (some (.complexConst true (mem.readC64 p).1 (mem.readC64 p).2), [])
  | _ => (none, [])

/-- genConstant for a std string (CharspanType): intern a NUL-terminated
C-string literal into the substitution module, take its address, cast it to
a byte pointer, and pair it with a 64 bit size constant equal to the pre-NUL
byte length in a StdvecInitOp of charspan type. -/
def genConstantString (v : List Nat) (p : Nat) : EmitRes :=
  (some (.stdvecInit .charspan
          (.cast (.ptr (.int 8)) (.addressOf p))
          (.intConst 64 (v.length : Int))),
   [.internGlobal p (v ++ [0])])

/-- Forward-order rebuild of a tuple constant: starting from an undef of the
forward struct type, extract field (n - i - 1) of the reversed-walk constant
and insert it at position i, for each forward index i. -/
def buildFwdTuple (ms : List CCType) (revCon : IRValue) : IRValue :=
  (List.range ms.length).foldl
    (fun aggie i =>
      IRValue.insertValue (.struct ms) aggie
        (IRValue.extractValue (ms.getD i (.int 0)) revCon (ms.length - i - 1)) i)
    (IRValue.undef (.struct ms))

/-- Element loop of the StdvecType case: dispatch the element type at the
cursor, store a successful value at index i of the buffer, advance the
cursor by the element size. -/
def genStdvecElems (d : Nat → Except String EmitRes) :
    Nat → Nat → Nat → Nat → Nat → Except String (List EOp)
  | 0, _i, _cursor, _eleSize, _buf => .ok []
  | m + 1, i, cursor, eleSize, buf => do
    let r ← d cursor
    let rest ← genStdvecElems d m (i + 1) (cursor + eleSize) eleSize buf
    .ok (r.2 ++ (match r.1 with | some v => [EOp.store v buf i] | none => []) ++ rest)

/-- genConstant for StdvecType: read the begin, end, capacity triple, skip on
a zero byte delta, otherwise alloca an array of the (int32-narrowed) element
count, walk the elements at begin plus i times the element size storing each
successful value, and wrap buffer and 64 bit length in a StdvecInitOp.
The byte delta and the division are modelled for the defined case where end
is not below begin. -/
def genConstantStdvec (d : Emitter) (L : DataLayout) (mem : Mem)
    (eleTy : CCType) (p : Nat) : Except String EmitRes :=
  let triple := mem.readVecTriple p
  let b := triple.1
  let en := triple.2.1
  let delta : Int := (en : Int) - (b : Int)
  if delta = 0 then .ok (none, [])
  else
    let eleSize := L.size eleTy
    let vecSize : Int := wrap32 ((((en - b) / eleSize : Nat)) : Int)
    let count := vecSize.toNat
    let arrTy := CCType.array eleTy (some count)
    do
      let elemOps ← genStdvecElems (d eleTy) count 0 b eleSize p
      .ok (some (.stdvecInit (.stdvec eleTy) (.alloca arrTy p) (.intConst 64 vecSize)),
           EOp.allocaOp p arrTy :: elemOps)

/-- Field loop of the StructType case: each field i is dispatched at the base
address plus the data-layout offset of field i of the full struct; a
successful value is inserted at index i, a skipped field leaves the aggregate
unchanged. -/
def genStructFields (d : Emitter) (L : DataLayout) (full : List CCType) :
    List CCType → Nat → Nat → IRValue → Except String EmitRes
  | [], _i, _p, aggie => .ok (some aggie, [])
  | t :: ts, i, p, aggie => do
    let r ← d t (p + L.offset full i)
    let aggie2 := match r.1 with
      | some v => IRValue.insertValue (.struct full) aggie v i
      | none => aggie
    let rest ← genStructFields d L full ts (i + 1) p aggie2
    .ok (rest.1, r.2 ++ rest.2)

/-- genConstant for StructType: skip an empty member list, otherwise walk the
fields over an undef aggregate. -/
def genConstantStruct (d : Emitter) (L : DataLayout)
    (ms : List CCType) (p : Nat) : Except String EmitRes :=
  match ms with
  | [] => .ok (none, [])
  | _ :: _ => genStructFields d L ms ms 0 p (.undef (.struct ms))

/-- genConstant for TupleType: clang lays std tuples out in reverse order, so
walk a synthetic struct over the reversed member list and rebuild the
forward-order aggregate by extract and insert.  An empty tuple is skipped. -/
def genConstantTuple (d : Emitter) (L : DataLayout)
    (ms : List CCType) (p : Nat) : Except String EmitRes :=
  match ms with
  | [] => .ok (none, [])
  | _ :: _ => do
    let r ← genConstantStruct d L ms.reverse p
    match r.1 with
    | none => .ok (none, r.2)
    | some revCon => .ok (some (buildFwdTuple ms revCon), r.2)

/-- Element loop of the ArrayType case: dispatch the element type at the
cursor, insert a successful value at index i, advance by the element size. -/
def genArrayElems (d : Emitter) (eleTy arrTy : CCType) :
    Nat → Nat → Nat → Nat → IRValue → Except String EmitRes
  | 0, _i, _p, _eleSize, aggie => .ok (some aggie, [])
  | m + 1, i, p, eleSize, aggie => do
    let r ← d eleTy p
    let aggie2 := match r.1 with
      | some v => IRValue.insertValue arrTy aggie v i
      | none => aggie
    let rest ← genArrayElems d eleTy arrTy m (i + 1) (p + eleSize) eleSize aggie2
    .ok (rest.1, r.2 ++ rest.2)

/-- genConstant for ArrayType: an unknown-size array is skipped; otherwise
walk the elements over an undef aggregate, advancing by the data-layout
element size. -/
def genConstantArray (d : Emitter) (L : DataLayout)
    (eleTy : CCType) (sz : Option Nat) (p : Nat) : Except String EmitRes :=
  match sz with
  | none => .ok (none, [])
  | some n =>
    genArrayElems d eleTy (CCType.array eleTy (some n)) n 0 p (L.size eleTy)
      (.undef (CCType.array eleTy (some n)))

/-- genConstant for a state pointer.  Simulator-local: the host pointer value
as an integer constant of machine pointer width, cast to a pointer to
StateType.  Simulator-remote: materialize the amplitudes as a complex array
(element type selected by the element size, 16 bytes meaning complex of f64).
Otherwise the TODO macro throws. -/
def genConstantState (d : Emitter) (L : DataLayout) (pf : PlatformSettings)
    (mem : Mem) (p : Nat) : Except String EmitRes :=
  if pf.isSimulator && !pf.isRemote then
    .ok (some (.cast (.ptr .state) (.intConst (pf.ptrBytes * 8) (p : Int))), [])
  else if pf.isSimulator && pf.isRemote then
    let sd := mem.readStateData p
    if sd.elementSize = 16 then
      genConstantArray d L (.complex .f64) (some sd.size) sd.data
    else
      genConstantArray d L (.complex .f32) (some sd.size) sd.data
  else
    .error "cudaq::state* argument synthesis for quantum hardware"

/-- Fueled form of the recursive walker dispatchSubtype of
ArgumentConversion.cpp.  Dispatch is purely on the type variant; leaves read
a typed host value at the address, aggregates recurse through the helper
passed their own fuel.  The fuel is a proof artifact only: dispatchSubtype
below instantiates it with the type weight, which the fuel-irrelevance
theorem shows is always sufficient, so the out-of-fuel branch is
unreachable. -/
def dispatchFuel (L : DataLayout) (pf : PlatformSettings) (mem : Mem) :
    Nat → CCType → Nat → Except String EmitRes
  | 0, _t, _p => .error "recursion fuel exhausted"
  | fuel + 1, t, p =>
    match t with
    | CCType.int bits => .ok (genIntLeaf mem bits p)
    | CCType.f32 => .ok (some (.f32Const (mem.readF32 p)), [])
    | CCType.f64 => .ok (some (.f64Const (mem.readF64 p)), [])
    | CCType.extFloat bits => .ok (some (.extFloatConst bits (mem.readLongDouble p)), [])
    | CCType.complex e => .ok (genComplexLeaf mem e p)
    | CCType.charspan => .ok (genConstantString (mem.readString p) p)
    | CCType.ptr e =>
      match e with
      | CCType.state => genConstantState (dispatchFuel L pf mem fuel) L pf mem p
      | _ => .ok (none, [])
    | CCType.state => .ok (none, [])
    | CCType.stdvec e => genConstantStdvec (dispatchFuel L pf mem fuel) L mem e p
    | CCType.struct ms => genConstantStruct (dispatchFuel L pf mem fuel) L ms p
    | CCType.array e sz => genConstantArray (dispatchFuel L pf mem fuel) L e sz p
    | CCType.tuple ms => genConstantTuple (dispatchFuel L pf mem fuel) L ms p

/-- The recursive walker dispatchSubtype: the fueled walker run with the
type-weight fuel, which always suffices. -/
def dispatchSubtype (L : DataLayout) (pf : PlatformSettings) (mem : Mem)
    (t : CCType) (p : Nat) : Except String EmitRes :=
  dispatchFuel L pf mem (tweight t) t p

/-- Canonical kernel-name prefix cudaqGenPrefixName of the runtime. -/
def cudaqGenPrefixName : String := "__nvqpp__mlirgen__"

/-- Symbol lookup in the source module, as lookupSymbol of FuncOp does:
return the formal parameter type list of the function with the given name. -/
def lookupSymbol (src : SourceModule) (name : String) : Option (List CCType) :=
  (src.symbols.find? (fun kv => kv.1 == name)).map (fun kv => kv.2)

/-- The top-level TypeSwitch of gen recognizes exactly these types: for each
of them buildSubst is invoked (creating an ArgumentSubstitutionOp whether or
not the inner emission is skipped); every other type reaches a case returning
a null op, so no record is created. -/
def topLevelRecognized : CCType → Bool
  | .int 1 | .int 8 | .int 16 | .int 32 | .int 64 => true
  | .int _ => false
  | .f32 | .f64 => true
  | .extFloat _ => true
  | .complex .f32 | .complex .f64 => true
  | .complex _ => false
  | .charspan => true
  | .ptr .state => true
  | .ptr _ => false
  | .stdvec _ => true
  | .struct _ => true
  | .array _ _ => true
  | .tuple _ => true
  | .state => false

/-- Processing of one (formal type, argument pointer) pair by gen: the
per-type cases of the TypeSwitch in gen duplicate, case for case, the
dispatch of dispatchSubtype; on a recognized type buildSubst creates the
record and runs the emission inside its block, otherwise no record is
created. -/
def genOne (L : DataLayout) (pf : PlatformSettings) (mem : Mem) (i : Nat)
    (argTy : CCType) (argPtr : Nat) : Except String (Option SubstRecord) :=
  if topLevelRecognized argTy then do
    let r ← dispatchSubtype L pf mem argTy argPtr
    .ok (some { index := i, val := r.1, ops := r.2 })
  else .ok none

/-- Loop of gen over the zipped (formal type, argument pointer) pairs,
numbering parameters from i0 and collecting the created records in order. -/
def genAll (L : DataLayout) (pf : PlatformSettings) (mem : Mem) :
    List (CCType × Nat) → Nat → Except String (List SubstRecord)
  | [], _ => .ok []
  | (t, q) :: rest, i => do
    let r ← genOne L pf mem i t q
    let rs ← genAll L pf mem rest (i + 1)
    .ok (match r with | some rec0 => rec0 :: rs | none => rs)

/-- ArgumentConverter gen: look up the kernel by its prefixed name, read the
formal parameter types, build the data layout from the module attribute
(empty string when absent), process each (type, pointer) pair, and append
the created substitution records to the accumulated list. -/
def gen (layoutOf : String → DataLayout) (pf : PlatformSettings) (mem : Mem)
    (kernelName : String) (st : ConverterState) (args : List Nat) :
    Except String ConverterState :=
  match lookupSymbol st.source (cudaqGenPrefixName ++ kernelName) with
  | none => .error "kernel lookup failure"
  | some inputTys => do
    let recs ← genAll (layoutOf (st.source.dataLayoutAttr.getD "")) pf mem
      (inputTys.zip args) 0
    .ok { st with substs := st.substs ++ recs }

/-- Field observer on emitted aggregate constants: the value an extract of
field i of an undef-plus-insert chain denotes (the latest insert at index i),
none when the field was left undefined. -/
def aggField : IRValue → Nat → Option IRValue
  | .insertValue _ agg v idx, i => if idx = i then some v else aggField agg i
  | _, _ => none

/-! Circuit renderer, from src/runtime/cudaq/algorithms/draw.cpp. -/

/-- CharSet glyph codes of the renderer. -/
def WIRE_LINE : Nat := 0

def CONTROL_LINE : Nat := 1

def WIRE_CONTROL_CROSS : Nat := 2

def CONTROL : Nat := 3

def BOX_LEFT_WIRE : Nat := 4

def BOX_RIGHT_WIRE : Nat := 5

def BOX_TOP_CONTROL : Nat := 6

def BOX_BOTTOM_CONTROL : Nat := 7

def BOX_TOP_LEFT_CORNER : Nat := 8

def BOX_TOP_RIGHT_CORNER : Nat := 9

def BOX_BOTTOM_LEFT_CORNER : Nat := 10

def BOX_BOTTOM_RIGHT_CORNER : Nat := 11

def SWAP_X : Nat := 12

/-- The blank cell, ASCII space. -/
def BLANK : Nat := 32

/-- merge_chars of draw.cpp: combine the glyph already in a cell (c0) with an
incoming glyph (c1), returning the new cell content.  The in-place reference
update of the source is returned as a value. -/
def merge_chars (c0 c1 : Nat) : Nat :=
  if c0 = c1 then c0
  else if c0 = BLANK then c1
  else if c1 = CONTROL_LINE then
    if c0 = CONTROL then c0
    else if c0 = WIRE_CONTROL_CROSS then c0
    else if c0 = WIRE_LINE then WIRE_CONTROL_CROSS
    else CONTROL_LINE
  else
    let a := min c0 c1
    let b := max c0 c1
    if a = WIRE_LINE ∧ (b = BOX_TOP_LEFT_CORNER ∨ b = BOX_TOP_RIGHT_CORNER) then
      BOX_BOTTOM_CONTROL
    else if a = WIRE_LINE ∧ (b = BOX_BOTTOM_LEFT_CORNER ∨ b = BOX_BOTTOM_RIGHT_CORNER) then
      BOX_TOP_CONTROL
    else if a = BOX_TOP_LEFT_CORNER ∧ b = BOX_BOTTOM_LEFT_CORNER then BOX_RIGHT_WIRE
    else if a = BOX_TOP_RIGHT_CORNER ∧ b = BOX_BOTTOM_RIGHT_CORNER then BOX_LEFT_WIRE
    else b

/-- One instruction of the trace consumed by the renderer: operation name,
target qudit ids and control qudit ids (the real parameters only influence
labels, not the schedule). -/
structure TraceInst where
  name : String
  targets : List Nat
  controls : List Nat

/-- Inclusive wire span of an instruction: the source sorts the target ids
and takes front and back (their minimum and maximum for a nonempty list),
then folds the controls in with min and max. -/
def instSpan (inst : TraceInst) : Nat × Nat :=
  let mn := inst.targets.foldl Nat.min (inst.targets.headD 0)
  let mx := inst.targets.foldl Nat.max (inst.targets.headD 0)
  (inst.controls.foldl Nat.min mn, inst.controls.foldl Nat.max mx)

/-- Membership of a wire in an inclusive span. -/
def inSpan (s : Nat × Nat) (w : Nat) : Prop := s.1 ≤ w ∧ w ≤ s.2

instance (s : Nat × Nat) (w : Nat) : Decidable (inSpan s w) := by
  unfold inSpan; infer_instance

/-- The layer scan of draw: starting from minus one, fold max of the
wire-layer entries over the inclusive span. -/
def spanLayerMax (wl : Nat → Int) (lo hi : Nat) : Int :=
  ((List.range (hi + 1 - lo)).map (fun d => wl (lo + d))).foldl max (-1)

/-- Update of the wire-layer table: every wire of the span is set to the
assigned layer. -/
def updateSpan (wl : Nat → Int) (lo hi : Nat) (layer : Int) : Nat → Int :=
  fun i => if lo ≤ i ∧ i ≤ hi then layer else wl i

/-- Layer assignment loop of draw: each instruction is assigned one plus the
maximal wire-layer entry over its span, and all wires of the span are then
set to that layer. -/
def assignLayers (wl : Nat → Int) : List (Nat × Nat) → List Int
  | [] => []
  | (lo, hi) :: rest =>
    let layer := spanLayerMax wl lo hi + 1
    layer :: assignLayers (updateSpan wl lo hi layer) rest

/-- The initial wire-layer table: minus one on every wire. -/
def wl0 : Nat → Int := fun _ => -1

/-- One step of the wire-layer table evolution. -/
def wlStep (wl : Nat → Int) (s : Nat × Nat) : Nat → Int :=
  updateSpan wl s.1 s.2 (spanLayerMax wl s.1 s.2 + 1)

/-- The wire-layer table just before instruction k is scheduled. -/
def wlBefore (wl : Nat → Int) (spans : List (Nat × Nat)) (k : Nat) : Nat → Int :=
  (spans.take k).foldl wlStep wl

/-- Layer index assigned to each instruction of a trace by draw. -/
def layersOf (insts : List TraceInst) : List Int :=
  assignLayers wl0 (insts.map instSpan)

/-! Concrete fixtures used by witness and counterexample theorems. -/

/-- A layout in which every type has size one and field i sits at offset i. -/
def unitLayout : DataLayout where
  size := fun _ => 1
  offset := fun _ i => i

/-- A layout in which every type has size four and field i sits at offset
four times i. -/
def fourLayout : DataLayout where
  size := fun _ => 4
  offset := fun _ i => 4 * i

/-- Local simulator platform on a 64 bit host. -/
def pfLocal : PlatformSettings where
  isSimulator := true
  isRemote := false
  ptrBytes := 8

/-- Local simulator platform on a 32 bit host. -/
def pfLocal32 : PlatformSettings where
  isSimulator := true
  isRemote := false
  ptrBytes := 4

/-- Quantum hardware platform (not a simulator). -/
def pfHardware : PlatformSettings where
  isSimulator := false
  isRemote := false
  ptrBytes := 8

/-- A concrete host memory: byte reads return their address, 32 bit reads
return the address plus one hundred, and every vector triple spans eight
bytes starting sixteen past the triple. -/
def memW : Mem where
  readBool := fun _ => true
  readI8 := fun a => (a : Int)
  readI16 := fun _ => 0
  readI32 := fun a => (a : Int) + 100
  readI64 := fun _ => 0
  readF32 := fun a => a
  readF64 := fun a => a
  readLongDouble := fun _ => "0.0"
  readC32 := fun _ => (0, 0)
  readC64 := fun _ => (0, 0)
  readString := fun _ => [104, 105]
  readVecTriple := fun p => (p + 16, p + 24, p + 32)
  readStateData := fun _ => { data := 0, size := 0, elementSize := 16 }

/-- Host memory in which every vector triple is empty (begin equals end). -/
def memEmptyVec : Mem := { memW with readVecTriple := fun _ => (7, 7, 7) }

/-- Host memory in which the vector triple spans two to the thirty-one
bytes. -/
def memBigVec : Mem := { memW with readVecTriple := fun _ => (0, 2 ^ 31, 2 ^ 31) }

/-- A source module with one kernel taking a vector of 32 bit integers. -/
def srcVec : SourceModule where
  symbols := [("__nvqpp__mlirgen__kern", [CCType.stdvec (CCType.int 32)])]
  dataLayoutAttr := none

/-- Layout collaborator constructor used by the gen fixtures. -/
def layoutOfW : String → DataLayout := fun _ => fourLayout

/-- The reversed-record constant the walker emits for the tuple of an 8 bit
and a 32 bit integer over memW at address zero with fourLayout. -/
def structRevW : IRValue :=
  .insertValue (.struct [.int 32, .int 8])
    (.insertValue (.struct [.int 32, .int 8]) (.undef (.struct [.int 32, .int 8]))
      (.intConst 32 100) 0)
    (.intConst 8 4) 1

/-- The forward tuple aggregate rebuilt from structRevW. -/
def tupleFwdW : IRValue :=
  .insertValue (.struct [.int 8, .int 32])
    (.insertValue (.struct [.int 8, .int 32]) (.undef (.struct [.int 8, .int 32]))
      (.extractValue (.int 8) structRevW 1) 0)
    (.extractValue (.int 32) structRevW 0) 1

/-- A two-instruction trace whose wire spans overlap on wire zero. -/
def instsW : List TraceInst :=
  [{ name := "h", targets := [0], controls := [] },
   { name := "x", targets := [1], controls := [0] }]

/-! Theorems.  First the fuel infrastructure: the type weight is positive,
member weights are below the list weight, and the fueled walker is
indifferent to any sufficient fuel. -/

theorem bindOk {α β : Type} (a : α) (f : α → Except String β) :
    (Except.ok a >>= f) = f a := rfl

theorem bindError {α β : Type} (e : String) (f : α → Except String β) :
    ((Except.error e : Except String α) >>= f) = .error e := rfl

theorem tweight_pos (t : CCType) : 1 ≤ tweight t := by
  cases t <;> simp only [tweight] <;> omega

theorem tweight_lt_lweight {t : CCType} {ms : List CCType} (h : t ∈ ms) :
    tweight t < lweight ms := by
  induction ms with
  | nil => cases h
  | cons a as ih =>
    rcases List.mem_cons.mp h with h1 | h2
    · subst h1; simp only [lweight]; omega
    · have := ih h2; simp only [lweight]; omega

theorem genStdvecElems_congr {d1 d2 : Nat → Except String EmitRes}
    (h : ∀ q, d1 q = d2 q) :
    ∀ m i cursor eleSize buf,
      genStdvecElems d1 m i cursor eleSize buf = genStdvecElems d2 m i cursor eleSize buf := by
  intro m
  induction m with
  | zero => intro i c s b; rfl
  | succ k ih => intro i c s b; simp only [genStdvecElems, h, ih]

theorem genConstantStdvec_congr {d1 d2 : Emitter} {L : DataLayout} {mem : Mem}
    {eleTy : CCType} {p : Nat} (h : ∀ q, d1 eleTy q = d2 eleTy q) :
    genConstantStdvec d1 L mem eleTy p = genConstantStdvec d2 L mem eleTy p := by
  simp only [genConstantStdvec, genStdvecElems_congr h]

theorem genStructFields_congr {d1 d2 : Emitter} {L : DataLayout} {full : List CCType} :
    ∀ {rest : List CCType}, (∀ t ∈ rest, ∀ q, d1 t q = d2 t q) →
    ∀ i p aggie, genStructFields d1 L full rest i p aggie = genStructFields d2 L full rest i p aggie := by
  intro rest
  induction rest with
  | nil => intro _ i p a; rfl
  | cons t ts ih =>
    intro h i p a
    simp only [genStructFields, h t (List.mem_cons_self t ts),
      ih (fun t2 ht2 q => h t2 (List.mem_cons_of_mem t ht2) q)]

theorem genConstantStruct_congr {d1 d2 : Emitter} {L : DataLayout} {ms : List CCType}
    (h : ∀ t ∈ ms, ∀ q, d1 t q = d2 t q) (p : Nat) :
    genConstantStruct d1 L ms p = genConstantStruct d2 L ms p := by
  cases ms with
  | nil => rfl
  | cons t ts => simp only [genConstantStruct]; exact genStructFields_congr h 0 p _

theorem genConstantTuple_congr {d1 d2 : Emitter} {L : DataLayout} {ms : List CCType}
    (h : ∀ t ∈ ms, ∀ q, d1 t q = d2 t q) (p : Nat) :
    genConstantTuple d1 L ms p = genConstantTuple d2 L ms p := by
  cases ms with
  | nil => rfl
  | cons t ts =>
    simp only [genConstantTuple,
      genConstantStruct_congr (fun t2 ht2 q => h t2 (List.mem_reverse.mp ht2) q) p]

theorem genArrayElems_congr {d1 d2 : Emitter} {eleTy arrTy : CCType}
    (h : ∀ q, d1 eleTy q = d2 eleTy q) :
    ∀ m i p eleSize aggie,
      genArrayElems d1 eleTy arrTy m i p eleSize aggie =
        genArrayElems d2 eleTy arrTy m i p eleSize aggie := by
  intro m
  induction m with
  | zero => intro i p s a; rfl
  | succ k ih => intro i p s a; simp only [genArrayElems, h, ih]

theorem genConstantArray_congr {d1 d2 : Emitter} {L : DataLayout} {eleTy : CCType}
    {sz : Option Nat} (h : ∀ q, d1 eleTy q = d2 eleTy q) (p : Nat) :
    genConstantArray d1 L eleTy sz p = genConstantArray d2 L eleTy sz p := by
  cases sz with
  | none => rfl
  | some n => simp only [genConstantArray]; exact genArrayElems_congr h n 0 p _ _

theorem genConstantState_congr {d1 d2 : Emitter} {L : DataLayout} {pf : PlatformSettings}
    {mem : Mem} (h64 : ∀ q, d1 (.complex .f64) q = d2 (.complex .f64) q)
    (h32 : ∀ q, d1 (.complex .f32) q = d2 (.complex .f32) q) (p : Nat) :
    genConstantState d1 L pf mem p = genConstantState d2 L pf mem p := by
  simp only [genConstantState, genConstantArray_congr h64, genConstantArray_congr h32]

theorem dispatchFuel_congr (L : DataLayout) (pf : PlatformSettings) (mem : Mem) :
    ∀ (f1 : Nat) (t : CCType) (p : Nat) (f2 : Nat),
      tweight t ≤ f1 → tweight t ≤ f2 →
      dispatchFuel L pf mem f1 t p = dispatchFuel L pf mem f2 t p := by
  intro f1
  induction f1 with
  | zero => intro t p f2 h1 _; have := tweight_pos t; omega
  | succ f ih =>
    intro t p f2 h1 h2
    cases f2 with
    | zero => have := tweight_pos t; omega
    | succ g =>
      cases t with
      | int bits => rfl
      | f32 => rfl
      | f64 => rfl
      | extFloat bits => rfl
      | complex e => rfl
      | charspan => rfl
      | state => rfl
      | ptr e =>
        cases e <;> try rfl
        case state =>
          simp only [dispatchFuel]
          apply genConstantState_congr
          · intro q
            apply ih
            · simp only [tweight] at h1 ⊢; omega
            · simp only [tweight] at h2 ⊢; omega
          · intro q
            apply ih
            · simp only [tweight] at h1 ⊢; omega
            · simp only [tweight] at h2 ⊢; omega
      | stdvec e =>
        simp only [dispatchFuel]
        apply genConstantStdvec_congr
        intro q
        apply ih
        · simp only [tweight] at h1; omega
        · simp only [tweight] at h2; omega
      | struct ms =>
        simp only [dispatchFuel]
        apply genConstantStruct_congr
        intro t2 ht2 q
        have hw := tweight_lt_lweight ht2
        apply ih
        · simp only [tweight] at h1; omega
        · simp only [tweight] at h2; omega
      | array e sz =>
        simp only [dispatchFuel]
        apply genConstantArray_congr
        intro q
        apply ih
        · simp only [tweight] at h1; omega
        · simp only [tweight] at h2; omega
      | tuple ms =>
        simp only [dispatchFuel]
        apply genConstantTuple_congr
        intro t2 ht2 q
        have hw := tweight_lt_lweight ht2
        apply ih
        · simp only [tweight] at h1; omega
        · simp only [tweight] at h2; omega

theorem dispatchSubtype_fuel (L : DataLayout) (pf : PlatformSettings) (mem : Mem)
    {t : CCType} {fuel : Nat} (p : Nat) (h : tweight t ≤ fuel) :
    dispatchFuel L pf mem fuel t p = dispatchSubtype L pf mem t p :=
  dispatchFuel_congr L pf mem fuel t p (tweight t) h (Nat.le_refl _)

theorem dispatchSubtype_stdvec (L : DataLayout) (pf : PlatformSettings) (mem : Mem)
    (e : CCType) (p : Nat) :
    dispatchSubtype L pf mem (.stdvec e) p =
      genConstantStdvec (dispatchSubtype L pf mem) L mem e p := by
  have h0 : dispatchSubtype L pf mem (.stdvec e) p =
      genConstantStdvec (dispatchFuel L pf mem (tweight e)) L mem e p := rfl
  rw [h0]
  exact genConstantStdvec_congr (fun q => dispatchSubtype_fuel L pf mem q (Nat.le_refl _))

theorem dispatchSubtype_struct (L : DataLayout) (pf : PlatformSettings) (mem : Mem)
    (ms : List CCType) (p : Nat) :
    dispatchSubtype L pf mem (.struct ms) p =
      genConstantStruct (dispatchSubtype L pf mem) L ms p := by
  have h0 : dispatchSubtype L pf mem (.struct ms) p =
      genConstantStruct (dispatchFuel L pf mem (lweight ms)) L ms p := rfl
  rw [h0]
  exact genConstantStruct_congr
    (fun t2 ht2 q => dispatchSubtype_fuel L pf mem q (Nat.le_of_lt (tweight_lt_lweight ht2))) p

theorem dispatchSubtype_tuple (L : DataLayout) (pf : PlatformSettings) (mem : Mem)
    (ms : List CCType) (p : Nat) :
    dispatchSubtype L pf mem (.tuple ms) p =
      genConstantTuple (dispatchSubtype L pf mem) L ms p := by
  have h0 : dispatchSubtype L pf mem (.tuple ms) p =
      genConstantTuple (dispatchFuel L pf mem (lweight ms + 1)) L ms p := rfl
  rw [h0]
  exact genConstantTuple_congr
    (fun t2 ht2 q => dispatchSubtype_fuel L pf mem q
      (Nat.le_of_lt (Nat.lt_succ_of_lt (tweight_lt_lweight ht2)))) p

theorem dispatchSubtype_array (L : DataLayout) (pf : PlatformSettings) (mem : Mem)
    (e : CCType) (sz : Option Nat) (p : Nat) :
    dispatchSubtype L pf mem (.array e sz) p =
      genConstantArray (dispatchSubtype L pf mem) L e sz p := by
  have h0 : dispatchSubtype L pf mem (.array e sz) p =
      genConstantArray (dispatchFuel L pf mem (tweight e)) L e sz p := rfl
  rw [h0]
  exact genConstantArray_congr (fun q => dispatchSubtype_fuel L pf mem q (Nat.le_refl _)) p

theorem dispatchSubtype_ptrState (L : DataLayout) (pf : PlatformSettings) (mem : Mem)
    (p : Nat) :
    dispatchSubtype L pf mem (.ptr .state) p =
      genConstantState (dispatchSubtype L pf mem) L pf mem p := by
  have h0 : dispatchSubtype L pf mem (.ptr .state) p =
      genConstantState (dispatchFuel L pf mem 4) L pf mem p := rfl
  rw [h0]
  exact genConstantState_congr
    (fun q => dispatchSubtype_fuel L pf mem q (by simp only [tweight]; omega))
    (fun q => dispatchSubtype_fuel L pf mem q (by simp only [tweight]; omega)) p

/-! Lemmas about the struct field walk and the tuple rebuild. -/

theorem genStructFields_isSome {d : Emitter} {L : DataLayout} {full : List CCType} :
    ∀ {rest : List CCType} {i p : Nat} {aggie : IRValue} {r : Option IRValue} {ops : List EOp},
      genStructFields d L full rest i p aggie = .ok (r, ops) → ∃ a, r = some a := by
  intro rest
  induction rest with
  | nil =>
    intro i p aggie r ops h
    simp only [genStructFields] at h
    cases h
    exact ⟨aggie, rfl⟩
  | cons t ts ih =>
    intro i p aggie r ops h
    simp only [genStructFields] at h
    cases hd : d t (p + L.offset full i) with
    | error e => rw [hd, bindError] at h; exact Except.noConfusion h
    | ok r1 =>
      rw [hd, bindOk] at h
      cases hrec : genStructFields d L full ts (i + 1) p
          (match r1.1 with
            | some v => IRValue.insertValue (.struct full) aggie v i
            | none => aggie) with
      | error e => rw [hrec, bindError] at h; exact Except.noConfusion h
      | ok r2 =>
        rw [hrec, bindOk] at h
        obtain ⟨a, ha⟩ := ih hrec
        cases h
        exact ⟨a, ha⟩

theorem genStructFields_preserve {d : Emitter} {L : DataLayout} {full : List CCType} :
    ∀ {rest : List CCType} {i p : Nat} {aggie res : IRValue} {ops : List EOp},
      genStructFields d L full rest i p aggie = .ok (some res, ops) →
      ∀ j, j < i → aggField res j = aggField aggie j := by
  intro rest
  induction rest with
  | nil =>
    intro i p aggie res ops h j _
    simp only [genStructFields] at h
    cases h
    rfl
  | cons t ts ih =>
    intro i p aggie res ops h j hj
    simp only [genStructFields] at h
    cases hd : d t (p + L.offset full i) with
    | error e => rw [hd, bindError] at h; exact Except.noConfusion h
    | ok r1 =>
      rw [hd, bindOk] at h
      cases hrec : genStructFields d L full ts (i + 1) p
          (match r1.1 with
            | some v => IRValue.insertValue (.struct full) aggie v i
            | none => aggie) with
      | error e => rw [hrec, bindError] at h; exact Except.noConfusion h
      | ok r2 =>
        obtain ⟨r2v, r2ops⟩ := r2
        rw [hrec, bindOk] at h
        dsimp only at h
        cases h
        have hpre := ih hrec j (by omega)
        rw [hpre]
        cases hv : r1.1 with
        | none => simp only [hv]
        | some v =>
          simp only [hv, aggField]
          rw [if_neg (by omega)]

theorem genStructFields_field {d : Emitter} {L : DataLayout} {full : List CCType} :
    ∀ {rest : List CCType} {i p : Nat} {aggie res : IRValue} {ops : List EOp},
      genStructFields d L full rest i p aggie = .ok (some res, ops) →
      ∀ k, k < rest.length →
      ∀ v vops, d (rest.getD k (.int 0)) (p + L.offset full (i + k)) = .ok (some v, vops) →
      aggField res (i + k) = some v := by
  intro rest
  induction rest with
  | nil => intro i p aggie res ops _ k hk; simp at hk
  | cons t ts ih =>
    intro i p aggie res ops h k hk v vops hv
    simp only [genStructFields] at h
    cases hd : d t (p + L.offset full i) with
    | error e => rw [hd, bindError] at h; exact Except.noConfusion h
    | ok r1 =>
      rw [hd, bindOk] at h
      cases hrec : genStructFields d L full ts (i + 1) p
          (match r1.1 with
            | some v => IRValue.insertValue (.struct full) aggie v i
            | none => aggie) with
      | error e => rw [hrec, bindError] at h; exact Except.noConfusion h
      | ok r2 =>
        obtain ⟨r2v, r2ops⟩ := r2
        rw [hrec, bindOk] at h
        dsimp only at h
        cases h
        cases k with
        | zero =>
          rw [Nat.add_zero] at hv ⊢
          simp only [List.getD_cons_zero] at hv
          rw [hv] at hd
          cases hd
          have hpre := genStructFields_preserve hrec i (by omega)
          rw [hpre]
          simp [aggField]
        | succ k2 =>
          have hv2 : d (ts.getD k2 (.int 0)) (p + L.offset full ((i + 1) + k2)) = .ok (some v, vops) := by
            have harith : (i + 1) + k2 = i + (k2 + 1) := by omega
            rw [harith]
            simp only [List.getD_cons_succ] at hv
            exact hv
          have := ih hrec k2 (by simpa using hk) v vops hv2
          have harith2 : (i + 1) + k2 = i + (k2 + 1) := by omega
          rw [harith2] at this
          exact this

theorem genConstantStruct_ne_nil {d : Emitter} {L : DataLayout} {ms : List CCType}
    (h : ms ≠ []) (p : Nat) :
    genConstantStruct d L ms p = genStructFields d L ms ms 0 p (.undef (.struct ms)) := by
  cases ms with
  | nil => exact absurd rfl h
  | cons a as => rfl

theorem aggField_range_foldl (fwdTy : CCType) (g : Nat → IRValue) :
    ∀ (k i : Nat) (init : IRValue),
      aggField ((List.range k).foldl
          (fun aggie j => IRValue.insertValue fwdTy aggie (g j) j) init) i =
        if i < k then some (g i) else aggField init i := by
  intro k
  induction k with
  | zero => intro i init; simp
  | succ k ih =>
    intro i init
    rw [List.range_succ, List.foldl_append]
    simp only [List.foldl_cons, List.foldl_nil]
    by_cases hik : k = i
    · simp only [aggField, if_pos hik]
      rw [if_pos (show i < k + 1 by omega), hik]
    · simp only [aggField, if_neg hik]
      rw [ih]
      by_cases hlt : i < k
      · rw [if_pos hlt, if_pos (by omega)]
      · rw [if_neg hlt, if_neg (by omega)]

theorem buildFwdTuple_field (ms : List CCType) (revCon : IRValue) (i : Nat)
    (h : i < ms.length) :
    aggField (buildFwdTuple ms revCon) i =
      some (.extractValue (ms.getD i (.int 0)) revCon (ms.length - i - 1)) := by
  have h2 := aggField_range_foldl (CCType.struct ms)
    (fun j => IRValue.extractValue (ms.getD j (.int 0)) revCon (ms.length - j - 1))
    ms.length i (IRValue.undef (.struct ms))
  rw [if_pos h] at h2
  exact h2

theorem getD_reverse_helper {l : List CCType} {i : Nat} (h : i < l.length) :
    l.reverse.getD (l.length - 1 - i) (.int 0) = l.getD i (.int 0) := by
  rw [List.getD_eq_getElem?_getD, List.getD_eq_getElem?_getD,
    List.getElem?_reverse (by omega)]
  rw [show l.length - 1 - (l.length - 1 - i) = i by omega]

/-- C2: for every non-empty tuple type and host instance, the walker first
walks the reversed synthetic record over the same pointer, and the emitted
forward-ordered aggregate holds at each forward index i exactly the
extraction of field (k - 1 - i) of that reversed-record constant; moreover
the reversed-record constant holds at index (k - 1 - i) the value the walker
dispatches for member type i at the data-layout offset of reversed field
(k - 1 - i), so field extraction inverts the reverse host layout. -/
theorem tuple_fields_invert_reverse_layout
    (L : DataLayout) (pf : PlatformSettings) (mem : Mem) (ms : List CCType) (p : Nat)
    (agg : IRValue) (ops : List EOp) (i : Nat)
    (hne : ms ≠ [])
    (hok : dispatchSubtype L pf mem (.tuple ms) p = .ok (some agg, ops))
    (hi : i < ms.length) :
    ∃ revCon opsS,
      genConstantStruct (dispatchSubtype L pf mem) L ms.reverse p = .ok (some revCon, opsS) ∧
      ops = opsS ∧
      aggField agg i =
        some (.extractValue (ms.getD i (.int 0)) revCon (ms.length - i - 1)) ∧
      (∀ v vops,
        dispatchSubtype L pf mem (ms.getD i (.int 0))
            (p + L.offset ms.reverse (ms.length - 1 - i)) = .ok (some v, vops) →
        aggField revCon (ms.length - 1 - i) = some v) := by
  rw [dispatchSubtype_tuple] at hok
  cases ms with
  | nil => exact absurd rfl hne
  | cons t ts =>
    simp only [genConstantTuple] at hok
    cases hs : genConstantStruct (dispatchSubtype L pf mem) L (t :: ts).reverse p with
    | error e => rw [hs, bindError] at hok; exact Except.noConfusion hok
    | ok r1 =>
      obtain ⟨rv, rops⟩ := r1
      rw [hs, bindOk] at hok
      cases rv with
      | none => simp at hok
      | some revCon =>
        dsimp only at hok
        cases hok
        refine ⟨revCon, ops, rfl, rfl, buildFwdTuple_field (t :: ts) revCon i hi, ?_⟩
        intro v vops hv
        rw [genConstantStruct_ne_nil (by simp) p] at hs
        have hk : (t :: ts).length - 1 - i < (t :: ts).reverse.length := by
          rw [List.length_reverse]
          simp only [List.length_cons] at hi ⊢
          omega
        have hv2 : dispatchSubtype L pf mem
            ((t :: ts).reverse.getD ((t :: ts).length - 1 - i) (.int 0))
            (p + L.offset (t :: ts).reverse (0 + ((t :: ts).length - 1 - i))) =
            .ok (some v, vops) := by
          rw [getD_reverse_helper hi, Nat.zero_add]
          exact hv
        have := genStructFields_field hs ((t :: ts).length - 1 - i) hk v vops hv2
        rw [Nat.zero_add] at this
        exact this

/-- Narrowing to int32 is the identity below two to the thirty-one. -/
theorem wrap32_small {n : Nat} (h : n < 2 ^ 31) : wrap32 ((n : Nat) : Int) = ((n : Nat) : Int) := by
  have hp : (2 : Nat) ^ 31 = 2147483648 := by norm_num
  rw [hp] at h
  simp only [wrap32, show (2 : Int) ^ 31 = 2147483648 by norm_num,
    show (2 : Int) ^ 32 = 4294967296 by norm_num]
  omega

theorem genStdvecElems_store_mem {dd : Nat → Except String EmitRes} :
    ∀ {m i0 cursor s buf : Nat} {ops : List EOp},
      genStdvecElems dd m i0 cursor s buf = .ok ops →
      ∀ k, k < m → ∀ v vops, dd (cursor + k * s) = .ok (some v, vops) →
      EOp.store v buf (i0 + k) ∈ ops := by
  intro m
  induction m with
  | zero => intro i0 c s b ops _ k hk; omega
  | succ m2 ih =>
    intro i0 c s b ops h k hk v vops hv
    simp only [genStdvecElems] at h
    cases hd : dd c with
    | error e => rw [hd, bindError] at h; exact Except.noConfusion h
    | ok r1 =>
      rw [hd, bindOk] at h
      cases hrec : genStdvecElems dd m2 (i0 + 1) (c + s) s b with
      | error e => rw [hrec, bindError] at h; exact Except.noConfusion h
      | ok rest =>
        rw [hrec, bindOk] at h
        cases h
        cases k with
        | zero =>
          rw [Nat.zero_mul, Nat.add_zero] at hv
          rw [hv] at hd
          cases hd
          rw [Nat.add_zero]
          simp
        | succ k2 =>
          have hv2 : dd ((c + s) + k2 * s) = .ok (some v, vops) := by
            have harith : (c + s) + k2 * s = c + (k2 + 1) * s := by ring
            rw [harith]
            exact hv
          have hmem := ih hrec k2 (by omega) v vops hv2
          rw [show i0 + (k2 + 1) = (i0 + 1) + k2 by omega]
          simp [hmem]

/-- C3 (amended): for a vector whose byte delta is positive and whose element
count n fits in a signed 32 bit integer, the emission is a StdvecInitOp whose
64 bit size constant is exactly n over an alloca of an n-element array, and
for every index i below n whose element dispatch produces a value, that value
is stored at index i of the buffer; the element address is begin plus i times
the element size. -/
theorem stdvec_span_length_and_elements
    (L : DataLayout) (pf : PlatformSettings) (mem : Mem) (e : CCType)
    (p b en cp n : Nat) (elemOps : List EOp)
    (htriple : mem.readVecTriple p = (b, en, cp))
    (hlt : b < en)
    (hpos : 0 < L.size e)
    (hn : n = (en - b) / L.size e)
    (hbound : n < 2 ^ 31)
    (helems : genStdvecElems (dispatchSubtype L pf mem e) n 0 b (L.size e) p = .ok elemOps) :
    dispatchSubtype L pf mem (.stdvec e) p =
      .ok (some (.stdvecInit (.stdvec e) (.alloca (.array e (some n)) p)
             (.intConst 64 (n : Int))),
           EOp.allocaOp p (.array e (some n)) :: elemOps) ∧
    ∀ i, i < n → ∀ v vops,
      dispatchSubtype L pf mem e (b + i * L.size e) = .ok (some v, vops) →
      EOp.store v p i ∈ elemOps := by
  constructor
  · rw [dispatchSubtype_stdvec]
    simp only [genConstantStdvec, htriple]
    rw [if_neg (by omega : ¬((en : Int) - (b : Int) = 0))]
    rw [← hn, wrap32_small hbound, Int.toNat_ofNat]
    rw [helems, bindOk]
  · intro i hi v vops hv
    have := genStdvecElems_store_mem helems i hi v vops hv
    rw [Nat.zero_add] at this
    exact this

/-- C3 counterexample: with a one-byte element type amid a vector whose byte
delta is two to the thirty-one, the element count that the claim predicts is
two to the thirty-one, but the narrowing to std int32 makes the walker emit a
span whose 64 bit size constant is minus two to the thirty-one (and walk no
element at all). -/
theorem stdvec_size_truncates_at_int32 :
    dispatchSubtype unitLayout pfLocal memBigVec (.stdvec (.int 8)) 0 =
      .ok (some (.stdvecInit (.stdvec (.int 8)) (.alloca (.array (.int 8) (some 0)) 0)
             (.intConst 64 (-(2 ^ 31)))), [EOp.allocaOp 0 (.array (.int 8) (some 0))]) ∧
    ((memBigVec.readVecTriple 0).2.1 - (memBigVec.readVecTriple 0).1) /
        unitLayout.size (.int 8) = 2 ^ 31 ∧
    (-(2 ^ 31) : Int) ≠ ((2 ^ 31 : Nat) : Int) := by
  refine ⟨rfl, rfl, by decide⟩

/-! Lemmas about gen: what genOne returns, the shape of a successful gen run,
and the record-per-index characterization of genAll. -/

theorem genOne_some {L : DataLayout} {pf : PlatformSettings} {mem : Mem} {i : Nat}
    {t : CCType} {q : Nat} {r : SubstRecord}
    (h : genOne L pf mem i t q = .ok (some r)) :
    r.index = i ∧ topLevelRecognized t = true ∧
    dispatchSubtype L pf mem t q = .ok (r.val, r.ops) := by
  unfold genOne at h
  by_cases hr : topLevelRecognized t = true
  · rw [if_pos hr] at h
    cases hd : dispatchSubtype L pf mem t q with
    | error e => rw [hd, bindError] at h; exact Except.noConfusion h
    | ok rr =>
      obtain ⟨rv, rops⟩ := rr
      rw [hd, bindOk] at h
      cases h
      exact ⟨rfl, hr, rfl⟩
  · rw [if_neg hr] at h
    simp at h

theorem genOne_none {L : DataLayout} {pf : PlatformSettings} {mem : Mem} {i : Nat}
    {t : CCType} {q : Nat}
    (h : genOne L pf mem i t q = .ok none) :
    topLevelRecognized t = false := by
  unfold genOne at h
  by_cases hr : topLevelRecognized t = true
  · rw [if_pos hr] at h
    cases hd : dispatchSubtype L pf mem t q with
    | error e => rw [hd, bindError] at h; exact Except.noConfusion h
    | ok rr => rw [hd, bindOk] at h; simp at h
  · simpa using hr

theorem genAll_spec {L : DataLayout} {pf : PlatformSettings} {mem : Mem} :
    ∀ {pairs : List (CCType × Nat)} {i0 : Nat} {recs : List SubstRecord},
      genAll L pf mem pairs i0 = .ok recs →
      (∀ r ∈ recs, i0 ≤ r.index ∧ r.index - i0 < pairs.length ∧
         topLevelRecognized (pairs.getD (r.index - i0) (CCType.state, 0)).1 = true ∧
         dispatchSubtype L pf mem (pairs.getD (r.index - i0) (CCType.state, 0)).1
           (pairs.getD (r.index - i0) (CCType.state, 0)).2 = .ok (r.val, r.ops)) ∧
      (∀ k, k < pairs.length →
         (topLevelRecognized (pairs.getD k (CCType.state, 0)).1 = true ↔
           ∃ r ∈ recs, r.index = i0 + k)) := by
  intro pairs
  induction pairs with
  | nil =>
    intro i0 recs h
    simp only [genAll] at h
    cases h
    constructor
    · intro r hr; simp at hr
    · intro k hk; simp at hk
  | cons pr rest ih =>
    intro i0 recs h
    obtain ⟨t, q⟩ := pr
    simp only [genAll] at h
    cases hone : genOne L pf mem i0 t q with
    | error e => rw [hone, bindError] at h; exact Except.noConfusion h
    | ok rOpt =>
      rw [hone, bindOk] at h
      cases hrest : genAll L pf mem rest (i0 + 1) with
      | error e => rw [hrest, bindError] at h; exact Except.noConfusion h
      | ok rs =>
        rw [hrest, bindOk] at h
        obtain ⟨ihA, ihB⟩ := ih hrest
        cases rOpt with
        | none =>
          cases h
          have hrec := genOne_none hone
          constructor
          · intro r hr
            obtain ⟨h1, h2, h3, h4⟩ := ihA r hr
            refine ⟨by omega, ?_, ?_, ?_⟩
            · simp only [List.length_cons]; omega
            · rw [show r.index - i0 = (r.index - (i0 + 1)) + 1 by omega,
                List.getD_cons_succ]
              exact h3
            · rw [show r.index - i0 = (r.index - (i0 + 1)) + 1 by omega,
                List.getD_cons_succ]
              exact h4
          · intro k hk
            cases k with
            | zero =>
              simp only [List.getD_cons_zero]
              constructor
              · intro hrc; rw [hrec] at hrc; exact Bool.noConfusion hrc
              · rintro ⟨r, hr, hidx⟩
                obtain ⟨h1, _, _, _⟩ := ihA r hr
                omega
            | succ k2 =>
              simp only [List.getD_cons_succ]
              rw [ihB k2 (by simpa using hk)]
              constructor
              · rintro ⟨r, hr, hidx⟩; exact ⟨r, hr, by omega⟩
              · rintro ⟨r, hr, hidx⟩; exact ⟨r, hr, by omega⟩
        | some r0 =>
          cases h
          obtain ⟨hidx, hrec, hdisp⟩ := genOne_some hone
          constructor
          · intro r hr
            rcases List.mem_cons.mp hr with rfl | hr2
            · refine ⟨by omega, ?_, ?_, ?_⟩
              · simp only [List.length_cons]; omega
              · rw [hidx, Nat.sub_self, List.getD_cons_zero]; exact hrec
              · rw [hidx, Nat.sub_self, List.getD_cons_zero]; exact hdisp
            · obtain ⟨h1, h2, h3, h4⟩ := ihA r hr2
              refine ⟨by omega, ?_, ?_, ?_⟩
              · simp only [List.length_cons]; omega
              · rw [show r.index - i0 = (r.index - (i0 + 1)) + 1 by omega,
                  List.getD_cons_succ]
                exact h3
              · rw [show r.index - i0 = (r.index - (i0 + 1)) + 1 by omega,
                  List.getD_cons_succ]
                exact h4
          · intro k hk
            cases k with
            | zero =>
              simp only [List.getD_cons_zero]
              constructor
              · intro _; exact ⟨r0, List.mem_cons_self r0 rs, by omega⟩
              · intro _; exact hrec
            | succ k2 =>
              simp only [List.getD_cons_succ]
              rw [ihB k2 (by simpa using hk)]
              constructor
              · rintro ⟨r, hr, hi2⟩; exact ⟨r, List.mem_cons_of_mem r0 hr, by omega⟩
              · rintro ⟨r, hr, hi2⟩
                rcases List.mem_cons.mp hr with rfl | hr2
                · omega
                · exact ⟨r, hr2, by omega⟩

theorem gen_ok_parts {layoutOf : String → DataLayout} {pf : PlatformSettings}
    {mem : Mem} {kernelName : String} {st : ConverterState} {args : List Nat}
    {st' : ConverterState}
    (hok : gen layoutOf pf mem kernelName st args = .ok st') :
    ∃ inputTys recs,
      lookupSymbol st.source (cudaqGenPrefixName ++ kernelName) = some inputTys ∧
      genAll (layoutOf (st.source.dataLayoutAttr.getD "")) pf mem
        (inputTys.zip args) 0 = .ok recs ∧
      st' = { st with substs := st.substs ++ recs } := by
  unfold gen at hok
  cases hlk : lookupSymbol st.source (cudaqGenPrefixName ++ kernelName) with
  | none => rw [hlk] at hok; exact Except.noConfusion hok
  | some tys =>
    rw [hlk] at hok
    dsimp only at hok
    cases hall : genAll (layoutOf (st.source.dataLayoutAttr.getD "")) pf mem
        (tys.zip args) 0 with
    | error e => rw [hall, bindError] at hok; exact Except.noConfusion hok
    | ok recs =>
      rw [hall, bindOk] at hok
      cases hok
      exact ⟨tys, recs, rfl, hall, rfl⟩

/-- C1 counterexample: a one-parameter kernel whose argument is a vector with
begin equal to end.  The emission is skipped (the block holds no result
value), yet gen still appends a substitution record for index 0 — the claim
says a record is appended only when emission succeeded. -/
theorem gen_appends_record_for_skipped_vector :
    gen layoutOfW pfLocal memEmptyVec "kern" { source := srcVec, substs := [] } [0] =
      .ok { source := srcVec, substs := [{ index := 0, val := none, ops := [] }] } ∧
    dispatchSubtype fourLayout pfLocal memEmptyVec (.stdvec (.int 32)) 0 = .ok (none, []) :=
  ⟨rfl, rfl⟩

/-- C1 (amended): gen appends a substitution record for parameter index k if
and only if the top-level type dispatch recognizes the formal type (known
integer widths, floats, complex of f32 or f64, charspan, pointer to
StateHandle, vector, struct, array, tuple); for a recognized type the record
is appended even when the inner emission is skipped, its block then holding
no result value; each appended record carries exactly the emission result of
the walker on its (type, pointer) pair. -/
theorem gen_record_iff_type_recognized
    (layoutOf : String → DataLayout) (pf : PlatformSettings) (mem : Mem)
    (kernelName : String) (st : ConverterState) (args : List Nat)
    (st' : ConverterState) (inputTys : List CCType)
    (hlk : lookupSymbol st.source (cudaqGenPrefixName ++ kernelName) = some inputTys)
    (hok : gen layoutOf pf mem kernelName st args = .ok st') :
    ∃ newRecs, st'.substs = st.substs ++ newRecs ∧
      (∀ k, k < (inputTys.zip args).length →
        (topLevelRecognized ((inputTys.zip args).getD k (CCType.state, 0)).1 = true ↔
          ∃ r ∈ newRecs, r.index = k)) ∧
      (∀ r ∈ newRecs,
        topLevelRecognized ((inputTys.zip args).getD r.index (CCType.state, 0)).1 = true ∧
        dispatchSubtype (layoutOf (st.source.dataLayoutAttr.getD "")) pf mem
          ((inputTys.zip args).getD r.index (CCType.state, 0)).1
          ((inputTys.zip args).getD r.index (CCType.state, 0)).2 = .ok (r.val, r.ops)) := by
  obtain ⟨tys2, recs, hlk2, hall, hst⟩ := gen_ok_parts hok
  rw [hlk] at hlk2
  cases hlk2
  obtain ⟨hA, hB⟩ := genAll_spec hall
  subst hst
  refine ⟨recs, rfl, ?_, ?_⟩
  · intro k hk
    rw [hB k hk]
    simp only [Nat.zero_add]
  · intro r hr
    obtain ⟨h1, h2, h3, h4⟩ := hA r hr
    rw [Nat.sub_zero] at h3 h4
    exact ⟨h3, h4⟩

/-- Witness for the amended C1 theorem at the concrete skipped-vector run. -/
theorem gen_record_iff_type_recognized_witness :
    ∃ newRecs,
      ({ source := srcVec, substs := [{ index := 0, val := none, ops := [] }] } :
        ConverterState).substs =
        ({ source := srcVec, substs := [] } : ConverterState).substs ++ newRecs ∧
      (∀ k, k < (([CCType.stdvec (.int 32)]).zip [0]).length →
        (topLevelRecognized ((([CCType.stdvec (.int 32)]).zip [0]).getD k
            (CCType.state, 0)).1 = true ↔
          ∃ r ∈ newRecs, r.index = k)) ∧
      (∀ r ∈ newRecs,
        topLevelRecognized ((([CCType.stdvec (.int 32)]).zip [0]).getD r.index
          (CCType.state, 0)).1 = true ∧
        dispatchSubtype (layoutOfW (srcVec.dataLayoutAttr.getD "")) pfLocal memEmptyVec
          ((([CCType.stdvec (.int 32)]).zip [0]).getD r.index (CCType.state, 0)).1
          ((([CCType.stdvec (.int 32)]).zip [0]).getD r.index (CCType.state, 0)).2 =
            .ok (r.val, r.ops)) :=
  gen_record_iff_type_recognized layoutOfW pfLocal memEmptyVec "kern"
    { source := srcVec, substs := [] } [0]
    { source := srcVec, substs := [{ index := 0, val := none, ops := [] }] }
    [CCType.stdvec (.int 32)] rfl rfl

/-- C9: a successful gen run returns the source module unchanged — it only
reads the kernel signature and the data-layout attribute — and everything it
creates is appended to the substitution record list. -/
theorem gen_preserves_source_module
    (layoutOf : String → DataLayout) (pf : PlatformSettings) (mem : Mem)
    (kernelName : String) (st : ConverterState) (args : List Nat) (st' : ConverterState)
    (hok : gen layoutOf pf mem kernelName st args = .ok st') :
    st'.source = st.source ∧ ∃ newRecs, st'.substs = st.substs ++ newRecs := by
  obtain ⟨tys, recs, _, _, hst⟩ := gen_ok_parts hok
  subst hst
  exact ⟨rfl, recs, rfl⟩

/-- Witness for C9 at the concrete skipped-vector run. -/
theorem gen_preserves_source_module_witness :
    ({ source := srcVec, substs := [{ index := 0, val := none, ops := [] }] } :
      ConverterState).source = ({ source := srcVec, substs := [] } : ConverterState).source ∧
    ∃ newRecs,
      ({ source := srcVec, substs := [{ index := 0, val := none, ops := [] }] } :
        ConverterState).substs =
        ({ source := srcVec, substs := [] } : ConverterState).substs ++ newRecs :=
  gen_preserves_source_module layoutOfW pfLocal memEmptyVec "kern"
    { source := srcVec, substs := [] } [0]
    { source := srcVec, substs := [{ index := 0, val := none, ops := [] }] } rfl

/-- C5: on a local simulator, a state argument is emitted as an integer
constant whose bit width is the host pointer width in bits — eight times
ptrBytes for any ptrBytes, not a fixed 64 — holding the pointer value, cast
to a pointer to StateType. -/
theorem state_local_pointer_width
    (L : DataLayout) (pf : PlatformSettings) (mem : Mem) (p : Nat)
    (h1 : pf.isSimulator = true) (h2 : pf.isRemote = false) :
    dispatchSubtype L pf mem (.ptr .state) p =
      .ok (some (.cast (.ptr .state) (.intConst (pf.ptrBytes * 8) (p : Int))), []) := by
  rw [dispatchSubtype_ptrState]
  simp [genConstantState, h1, h2]

/-- Witness for C5 on a 32 bit host: the emitted constant has width 32. -/
theorem state_local_pointer_width_witness :
    dispatchSubtype fourLayout pfLocal32 memW (.ptr .state) 5 =
      .ok (some (.cast (.ptr .state) (.intConst 32 (5 : Int))), []) :=
  state_local_pointer_width fourLayout pfLocal32 memW 5 rfl rfl

/-- C6: on a non-simulator platform (either remote flag), a state argument
produces no constant: the walker signals the not-implemented failure of the
TODO macro, and genOne propagates it, halting substitution. -/
theorem state_hardware_not_implemented
    (L : DataLayout) (pf : PlatformSettings) (mem : Mem) (p i : Nat)
    (h : pf.isSimulator = false) :
    dispatchSubtype L pf mem (.ptr .state) p =
      .error "cudaq::state* argument synthesis for quantum hardware" ∧
    genOne L pf mem i (.ptr .state) p =
      .error "cudaq::state* argument synthesis for quantum hardware" := by
  have hd : dispatchSubtype L pf mem (.ptr .state) p =
      .error "cudaq::state* argument synthesis for quantum hardware" := by
    rw [dispatchSubtype_ptrState]
    simp [genConstantState, h]
  refine ⟨hd, ?_⟩
  unfold genOne
  rw [if_pos (by rfl), hd, bindError]

/-- Witness for C6 on the hardware platform. -/
theorem state_hardware_not_implemented_witness :
    dispatchSubtype fourLayout pfHardware memW (.ptr .state) 5 =
      .error "cudaq::state* argument synthesis for quantum hardware" ∧
    genOne fourLayout pfHardware memW 0 (.ptr .state) 5 =
      .error "cudaq::state* argument synthesis for quantum hardware" :=
  state_hardware_not_implemented fourLayout pfHardware memW 5 0 rfl

/-- C7: a charspan argument interns a global literal holding the bytes of the
host string with a NUL appended, but the 64 bit span size constant is the
pre-NUL byte length, and the StdvecInitOp pairs the pointer to the global
(cast to a byte pointer) with that size. -/
theorem charspan_nul_terminated_pre_nul_length
    (L : DataLayout) (pf : PlatformSettings) (mem : Mem) (p : Nat) :
    dispatchSubtype L pf mem .charspan p =
      .ok (some (.stdvecInit .charspan (.cast (.ptr (.int 8)) (.addressOf p))
             (.intConst 64 ((mem.readString p).length : Int))),
           [.internGlobal p (mem.readString p ++ [0])]) := rfl

/-- C10: a record type with zero fields is skipped by the walker — no value
is produced — exactly like an empty tuple. -/
theorem empty_struct_skipped_like_empty_tuple
    (L : DataLayout) (pf : PlatformSettings) (mem : Mem) (p : Nat) :
    dispatchSubtype L pf mem (.struct []) p = .ok (none, []) ∧
    dispatchSubtype L pf mem (.tuple []) p = .ok (none, []) :=
  ⟨rfl, rfl⟩

/-- C4 counterexample: merging a blank into a cell holding the control-dot
glyph blanks the cell (the final keep-the-larger rule favours the blank,
whose code 32 exceeds every box-drawing code), while merging the control dot
into a blank cell keeps the dot — so the merge is not commutative for blank
versus non-blank. -/
theorem merge_chars_blank_not_commutative :
    merge_chars CONTROL BLANK = BLANK ∧ merge_chars BLANK CONTROL = CONTROL ∧
    merge_chars CONTROL BLANK ≠ merge_chars BLANK CONTROL := by
  refine ⟨by decide, by decide, by decide⟩

/-- C4 (amended): merge_chars is idempotent for identical inputs, and
merging into a blank cell always keeps the incoming glyph; the blank
commutes only with glyphs whose code exceeds the blank (printable label
bytes) — for any cell code below the blank, merging a blank in yields a
blank. -/
theorem merge_chars_idempotent_and_blank (c x y z : Nat)
    (hx : x ≠ BLANK) (hy : BLANK < y) (hz : z < BLANK) :
    merge_chars c c = c ∧ merge_chars BLANK x = x ∧
    merge_chars y BLANK = y ∧ merge_chars z BLANK = BLANK := by
  simp only [merge_chars, BLANK, CONTROL_LINE, CONTROL, WIRE_CONTROL_CROSS, WIRE_LINE,
    BOX_TOP_LEFT_CORNER, BOX_TOP_RIGHT_CORNER, BOX_BOTTOM_LEFT_CORNER,
    BOX_BOTTOM_RIGHT_CORNER, BOX_RIGHT_WIRE, BOX_LEFT_WIRE, BOX_TOP_CONTROL,
    BOX_BOTTOM_CONTROL] at *
  refine ⟨?_, ?_, ?_, ?_⟩ <;> (split_ifs <;> omega)

/-- Witness for the amended C4 theorem at the control dot, a printable label
byte and a box glyph. -/
theorem merge_chars_idempotent_and_blank_witness :
    merge_chars 3 3 = 3 ∧ merge_chars BLANK 1 = 1 ∧
    merge_chars 65 BLANK = 65 ∧ merge_chars 3 BLANK = BLANK :=
  merge_chars_idempotent_and_blank 3 1 65 3 (by decide) (by decide) (by decide)

/-! Lemmas for the renderer schedule: fold bounds for min and max, the span
maximum bounds every wire entry, and the wire-layer table grows pointwise. -/

theorem foldl_min_le_init : ∀ (l : List Nat) (a : Nat), l.foldl Nat.min a ≤ a := by
  intro l
  induction l with
  | nil => intro a; exact Nat.le_refl a
  | cons b bs ih =>
    intro a
    calc (b :: bs).foldl Nat.min a = bs.foldl Nat.min (Nat.min a b) := rfl
    _ ≤ Nat.min a b := ih (Nat.min a b)
    _ ≤ a := Nat.min_le_left a b

theorem foldl_min_le_mem : ∀ (l : List Nat) (a x : Nat), x ∈ l → l.foldl Nat.min a ≤ x := by
  intro l
  induction l with
  | nil => intro a x h; cases h
  | cons b bs ih =>
    intro a x h
    rcases List.mem_cons.mp h with rfl | h2
    · calc (x :: bs).foldl Nat.min a = bs.foldl Nat.min (Nat.min a x) := rfl
      _ ≤ Nat.min a x := foldl_min_le_init bs (Nat.min a x)
      _ ≤ x := Nat.min_le_right a x
    · exact ih (Nat.min a b) x h2

theorem foldl_max_init_le : ∀ (l : List Nat) (a : Nat), a ≤ l.foldl Nat.max a := by
  intro l
  induction l with
  | nil => intro a; exact Nat.le_refl a
  | cons b bs ih =>
    intro a
    calc a ≤ Nat.max a b := Nat.le_max_left a b
    _ ≤ bs.foldl Nat.max (Nat.max a b) := ih (Nat.max a b)
    _ = (b :: bs).foldl Nat.max a := rfl

theorem foldl_max_mem_le : ∀ (l : List Nat) (a x : Nat), x ∈ l → x ≤ l.foldl Nat.max a := by
  intro l
  induction l with
  | nil => intro a x h; cases h
  | cons b bs ih =>
    intro a x h
    rcases List.mem_cons.mp h with rfl | h2
    · calc x ≤ Nat.max a x := Nat.le_max_right a x
      _ ≤ bs.foldl Nat.max (Nat.max a x) := foldl_max_init_le bs (Nat.max a x)
      _ = (x :: bs).foldl Nat.max a := rfl
    · exact ih (Nat.max a b) x h2

/-- The span of an instruction covers every target and every control wire. -/
theorem instSpan_covers (inst : TraceInst) (q : Nat)
    (h : q ∈ inst.targets ∨ q ∈ inst.controls) :
    inSpan (instSpan inst) q := by
  unfold instSpan inSpan
  rcases h with ht | hc
  · constructor
    · calc inst.controls.foldl Nat.min (inst.targets.foldl Nat.min (inst.targets.headD 0)) ≤
          inst.targets.foldl Nat.min (inst.targets.headD 0) :=
            foldl_min_le_init inst.controls _
      _ ≤ q := foldl_min_le_mem inst.targets _ q ht
    · calc q ≤ inst.targets.foldl Nat.max (inst.targets.headD 0) :=
          foldl_max_mem_le inst.targets _ q ht
      _ ≤ inst.controls.foldl Nat.max (inst.targets.foldl Nat.max (inst.targets.headD 0)) :=
          foldl_max_init_le inst.controls _
  · exact ⟨foldl_min_le_mem inst.controls _ q hc, foldl_max_mem_le inst.controls _ q hc⟩

theorem foldl_max_int_init_le : ∀ (l : List Int) (a : Int), a ≤ l.foldl max a := by
  intro l
  induction l with
  | nil => intro a; exact le_refl a
  | cons b bs ih =>
    intro a
    calc a ≤ max a b := le_max_left a b
    _ ≤ bs.foldl max (max a b) := ih (max a b)
    _ = (b :: bs).foldl max a := rfl

theorem foldl_max_int_mem_le : ∀ (l : List Int) (a x : Int), x ∈ l → x ≤ l.foldl max a := by
  intro l
  induction l with
  | nil => intro a x h; cases h
  | cons b bs ih =>
    intro a x h
    rcases List.mem_cons.mp h with rfl | h2
    · calc x ≤ max a x := le_max_right a x
      _ ≤ bs.foldl max (max a x) := foldl_max_int_init_le bs (max a x)
      _ = (x :: bs).foldl max a := rfl
    · exact ih (max a b) x h2

theorem spanLayerMax_ge {wl : Nat → Int} {lo hi i : Nat} (h1 : lo ≤ i) (h2 : i ≤ hi) :
    wl i ≤ spanLayerMax wl lo hi := by
  unfold spanLayerMax
  apply foldl_max_int_mem_le
  apply List.mem_map.mpr
  exact ⟨i - lo, List.mem_range.mpr (by omega), by rw [show lo + (i - lo) = i by omega]⟩

/-- One scheduling step never lowers any wire-layer entry. -/
theorem wlStep_ge (wl : Nat → Int) (s : Nat × Nat) (i : Nat) : wl i ≤ wlStep wl s i := by
  unfold wlStep updateSpan
  split
  · rename_i hin
    have := @spanLayerMax_ge wl _ _ _ hin.1 hin.2
    omega
  · exact le_refl _

/-- Any later instruction whose span contains wire w is assigned a layer
strictly above the current wire-layer entry of w. -/
theorem assignLayers_gt {w : Nat} :
    ∀ (spans : List (Nat × Nat)) (wl : Nat → Int) (k : Nat),
      k < spans.length → inSpan (spans.getD k (0, 0)) w →
      wl w < (assignLayers wl spans).getD k 0 := by
  intro spans
  induction spans with
  | nil => intro wl k hk; simp at hk
  | cons s rest ih =>
    intro wl k hk hin
    obtain ⟨lo, hi⟩ := s
    cases k with
    | zero =>
      simp only [List.getD_cons_zero] at hin
      simp only [assignLayers, List.getD_cons_zero]
      have hin2 : lo ≤ w ∧ w ≤ hi := hin
      have := @spanLayerMax_ge wl _ _ _ hin2.1 hin2.2
      omega
    | succ k2 =>
      simp only [List.getD_cons_succ] at hin
      simp only [assignLayers, List.getD_cons_succ]
      have hstep := wlStep_ge wl (lo, hi) w
      have hrec := ih (wlStep wl (lo, hi)) k2 (by simpa using hk) hin
      have hsame : wlStep wl (lo, hi) =
          updateSpan wl lo hi (spanLayerMax wl lo hi + 1) := rfl
      rw [hsame] at hrec hstep
      omega

/-- The layer of instruction k is one plus the span maximum over the
wire-layer table just before k. -/
theorem assignLayers_formula :
    ∀ (spans : List (Nat × Nat)) (wl : Nat → Int) (k : Nat), k < spans.length →
      (assignLayers wl spans).getD k 0 =
        spanLayerMax (wlBefore wl spans k) (spans.getD k (0, 0)).1
          (spans.getD k (0, 0)).2 + 1 := by
  intro spans
  induction spans with
  | nil => intro wl k hk; simp at hk
  | cons s rest ih =>
    intro wl k hk
    obtain ⟨lo, hi⟩ := s
    cases k with
    | zero =>
      simp only [assignLayers, List.getD_cons_zero, wlBefore, List.take_zero, List.foldl_nil]
    | succ k2 =>
      simp only [assignLayers, List.getD_cons_succ]
      rw [ih (updateSpan wl lo hi (spanLayerMax wl lo hi + 1)) k2 (by simpa using hk)]
      have hsame : wlBefore wl ((lo, hi) :: rest) (k2 + 1) =
          wlBefore (updateSpan wl lo hi (spanLayerMax wl lo hi + 1)) rest k2 := by
        unfold wlBefore
        rw [List.take_succ_cons, List.foldl_cons]
        rfl
      rw [hsame]

/-- Two overlapping instructions are assigned strictly increasing layers. -/
theorem assignLayers_overlap_lt {w : Nat} :
    ∀ (spans : List (Nat × Nat)) (wl : Nat → Int) (j k : Nat),
      j < k → k < spans.length →
      inSpan (spans.getD j (0, 0)) w → inSpan (spans.getD k (0, 0)) w →
      (assignLayers wl spans).getD j 0 < (assignLayers wl spans).getD k 0 := by
  intro spans
  induction spans with
  | nil => intro wl j k hjk hk; simp at hk
  | cons s rest ih =>
    intro wl j k hjk hk hj hk2
    obtain ⟨lo, hi⟩ := s
    cases j with
    | zero =>
      cases k with
      | zero => omega
      | succ k2 =>
        simp only [List.getD_cons_zero] at hj
        simp only [List.getD_cons_succ] at hk2
        simp only [assignLayers, List.getD_cons_zero, List.getD_cons_succ]
        have hrec := assignLayers_gt rest
          (updateSpan wl lo hi (spanLayerMax wl lo hi + 1)) k2 (by simpa using hk) hk2
        have hw : updateSpan wl lo hi (spanLayerMax wl lo hi + 1) w =
            spanLayerMax wl lo hi + 1 := by
          unfold updateSpan
          rw [if_pos ⟨hj.1, hj.2⟩]
        rw [hw] at hrec
        exact hrec
    | succ j2 =>
      cases k with
      | zero => omega
      | succ k2 =>
        simp only [List.getD_cons_succ] at hj hk2
        simp only [assignLayers, List.getD_cons_succ]
        exact ih (updateSpan wl lo hi (spanLayerMax wl lo hi + 1)) j2 k2
          (by omega) (by simpa using hk) hj hk2

theorem spans_getD_map (insts : List TraceInst) (j : Nat) :
    (insts.map instSpan).getD j (0, 0) =
      instSpan (insts.getD j { name := "", targets := [], controls := [] }) := by
  have h : ((0 : Nat), (0 : Nat)) = instSpan { name := "", targets := [], controls := [] } := rfl
  rw [h, List.getD_map]

/-- C8: in the layered schedule of draw, instruction k is assigned layer
index one plus the maximal wire-layer entry over its inclusive span (the
wire-layer table starting at minus one and being set to the assigned layer on
every wire of the span after each placement), the span covers every target
and control wire, and consequently two instructions whose spans share a wire
are never placed in the same layer. -/
theorem layer_assignment_and_overlap_distinct
    (insts : List TraceInst) (j k w q : Nat)
    (hjk : j < k) (hk : k < insts.length)
    (hwj : inSpan (instSpan (insts.getD j { name := "", targets := [], controls := [] })) w)
    (hwk : inSpan (instSpan (insts.getD k { name := "", targets := [], controls := [] })) w)
    (hq : q ∈ (insts.getD k { name := "", targets := [], controls := [] }).targets ∨
          q ∈ (insts.getD k { name := "", targets := [], controls := [] }).controls) :
    (layersOf insts).getD k 0 =
      spanLayerMax (wlBefore wl0 (insts.map instSpan) k)
        ((insts.map instSpan).getD k (0, 0)).1 ((insts.map instSpan).getD k (0, 0)).2 + 1 ∧
    (layersOf insts).getD j 0 ≠ (layersOf insts).getD k 0 ∧
    inSpan (instSpan (insts.getD k { name := "", targets := [], controls := [] })) q := by
  have hlen : (insts.map instSpan).length = insts.length := List.length_map _ _
  refine ⟨?_, ?_, instSpan_covers _ q hq⟩
  · exact assignLayers_formula (insts.map instSpan) wl0 k (by omega)
  · have hlt := assignLayers_overlap_lt (w := w) (insts.map instSpan) wl0 j k hjk
      (by omega) (by rw [spans_getD_map]; exact hwj) (by rw [spans_getD_map]; exact hwk)
    unfold layersOf
    omega

/-- Witness for C8 on a two-instruction trace overlapping on wire zero. -/
theorem layer_assignment_and_overlap_distinct_witness :
    (layersOf instsW).getD 1 0 =
      spanLayerMax (wlBefore wl0 (instsW.map instSpan) 1)
        ((instsW.map instSpan).getD 1 (0, 0)).1 ((instsW.map instSpan).getD 1 (0, 0)).2 + 1 ∧
    (layersOf instsW).getD 0 0 ≠ (layersOf instsW).getD 1 0 ∧
    inSpan (instSpan (instsW.getD 1 { name := "", targets := [], controls := [] })) 1 :=
  layer_assignment_and_overlap_distinct instsW 0 1 0 1 (by decide) (by decide)
    (by decide) (by decide) (by decide)

/-- Witness for C2 at the tuple of an 8 bit and a 32 bit integer over memW. -/
theorem tuple_fields_invert_reverse_layout_witness :
    ∃ revCon opsS,
      genConstantStruct (dispatchSubtype fourLayout pfLocal memW) fourLayout
        ([CCType.int 8, CCType.int 32]).reverse 0 = .ok (some revCon, opsS) ∧
      ([] : List EOp) = opsS ∧
      aggField tupleFwdW 0 =
        some (.extractValue ([CCType.int 8, CCType.int 32].getD 0 (.int 0)) revCon
          ([CCType.int 8, CCType.int 32].length - 0 - 1)) ∧
      (∀ v vops,
        dispatchSubtype fourLayout pfLocal memW ([CCType.int 8, CCType.int 32].getD 0 (.int 0))
            (0 + fourLayout.offset ([CCType.int 8, CCType.int 32]).reverse
              ([CCType.int 8, CCType.int 32].length - 1 - 0)) = .ok (some v, vops) →
        aggField revCon ([CCType.int 8, CCType.int 32].length - 1 - 0) = some v) :=
  tuple_fields_invert_reverse_layout fourLayout pfLocal memW [CCType.int 8, CCType.int 32] 0
    tupleFwdW [] 0 (by simp) rfl (by decide)

/-- Witness for the amended C3 theorem on a two-element vector of 32 bit
integers over memW. -/
theorem stdvec_span_length_and_elements_witness :
    (dispatchSubtype fourLayout pfLocal memW (.stdvec (.int 32)) 0 =
      .ok (some (.stdvecInit (.stdvec (.int 32)) (.alloca (.array (.int 32) (some 2)) 0)
             (.intConst 64 (2 : Int))),
           EOp.allocaOp 0 (.array (.int 32) (some 2)) ::
             [EOp.store (.intConst 32 116) 0 0, EOp.store (.intConst 32 120) 0 1])) ∧
    ∀ i, i < 2 → ∀ v vops,
      dispatchSubtype fourLayout pfLocal memW (.int 32) (16 + i * fourLayout.size (.int 32)) =
        .ok (some v, vops) →
      EOp.store v 0 i ∈ [EOp.store (.intConst 32 116) 0 0, EOp.store (.intConst 32 120) 0 1] :=
  stdvec_span_length_and_elements fourLayout pfLocal memW (.int 32) 0 16 24 32 2
    [EOp.store (.intConst 32 116) 0 0, EOp.store (.intConst 32 120) 0 1]
    rfl (by decide) (by decide) rfl (by decide) rfl
